import Mathlib

/-!
# Verification of the TMSU reconciliation and identity engine

A shallow embedding, in Lean 4, of the core logic of the TMSU repository:

* the `tag` command (`tagPath`, `addFile`, `applyTag`, `validateFileAdd`
  from the tag command source file),
* the `status` command classifier (`getStatus`, `getTaggedPathStatus`,
  `getUntaggedPathStatus`, `status`, `addToReport`),
* the `dupes` command probe mode (`findDuplicatesOf` from
  `src/tmsu/cli/dupes.go`) and the store-side global duplicate grouping.

Paths are modelled as lists of components (a Go absolute path `/a/b`
becomes `["a", "b"]`); `filepath.Dir` becomes `List.dropLast`.  Machine
timestamps are `Int` values in seconds (the Go code compares
`ModTime().Unix()` values, i.e. second precision).  The live filesystem is
modelled as an immutable in-memory tree (`FSNode`); `os.Stat` becomes a
lookup in that tree.  The persisted store (the `database`/`storage`
packages, which are not part of the excerpt) is modelled from the spec's
Entity Store contract as a record of lists with pure state passing.
Fallible operations return `Except`; the Go runtime panic on an
out-of-range string index is modelled as a distinct error outcome.
-/

namespace Tmsu

/-- An absolute filesystem path, as its list of components
(`/a/b` ↦ `["a", "b"]`; the root `/` is `[]`). -/
abbrev Path := List String

/-- `filepath.Dir`: the parent directory of a path (drop the last
component; the parent of the root is the root itself, as in Go). -/
def parentDir (p : Path) : Path := p.dropLast

/-- `p` is strictly underneath directory `dir` (a proper descendant:
`dir` is a proper prefix of `p`). -/
def isProperUnder (p dir : Path) : Bool := dir.isPrefixOf p && decide (p ≠ dir)

/-- Decidable equality for `Except`, so that concrete runs of the
fallible operations can be checked by `decide`. -/
instance {ε α : Type} [DecidableEq ε] [DecidableEq α] : DecidableEq (Except ε α) := fun x y =>
  match x, y with
  | .error a, .error b =>
    if h : a = b then isTrue (by rw [h]) else isFalse (fun hh => h (by injection hh))
  | .error _, .ok _ => isFalse (fun hh => Except.noConfusion hh)
  | .ok _, .error _ => isFalse (fun hh => Except.noConfusion hh)
  | .ok a, .ok b =>
    if h : a = b then isTrue (by rw [h]) else isFalse (fun hh => h (by injection hh))

/-! ## The live filesystem, modelled as an immutable tree -/

/-- The result of a successful `os.Stat`: whether the path is a directory
and its modification time in whole seconds (`ModTime().Unix()`). -/
structure StatInfo where
  isDir : Bool
  modTime : Int
deriving DecidableEq

/-- A node of the live filesystem tree: a regular file with a
modification time, or a directory with a modification time and named
entries. -/
inductive FSNode where
  | file : Int → FSNode
  | dir : Int → List (String × FSNode) → FSNode

/-- Look an entry name up in a directory's entry list. -/
def lookupEntry : List (String × FSNode) → String → Option FSNode
  | [], _ => none
  | (n, c) :: rest, x => if n = x then some c else lookupEntry rest x

/-- Resolve a path against the tree, returning the node it denotes. -/
def findNode : FSNode → Path → Option FSNode
  | node, [] => some node
  | .file _, _ :: _ => none
  | .dir _ es, x :: rest =>
    match lookupEntry es x with
    | some c => findNode c rest
    | none => none

/-- The stat information of a node. -/
def nodeInfo : FSNode → StatInfo
  | .file mt => ⟨false, mt⟩
  | .dir mt _ => ⟨true, mt⟩

/-- `os.Stat` against the tree: `some` on success, `none` when the path
does not exist (`IsNotExist`). -/
def statAt (root : FSNode) (p : Path) : Option StatInfo :=
  (findNode root p).map nodeInfo

/-- Whether the tree's root node is a directory (the real `/` always is). -/
def rootIsDir : FSNode → Bool
  | .file _ => false
  | .dir _ _ => true

/-! ## The entity store

The `database` package is not part of the source excerpt: only its
callers are.  Its operations are therefore modelled from the spec's
Entity Store contract (spec §6), with pure state passing. -/

/-- A `File` record: opaque id, absolute path, fingerprint, last-known
modification timestamp in whole seconds. -/
structure File where
  id : Nat
  path : Path
  fingerprint : String
  modTime : Int
deriving DecidableEq

/-- A `Tag` record: opaque id and name. -/
structure Tag where
  id : Nat
  name : String
deriving DecidableEq

/-- A `FileTag` association record. -/
structure FileTag where
  fileId : Nat
  tagId : Nat
deriving DecidableEq

/-- The persisted store: files, tags, associations, and fresh-id
counters. -/
structure Database where
  files : List File
  tags : List Tag
  fileTags : List FileTag
  nextFileId : Nat
  nextTagId : Nat
deriving DecidableEq

/-- The empty store. -/
def emptyDb : Database := ⟨[], [], [], 0, 0⟩

/-- Modelled from the spec: `fileByPath(path) -> File?` — the store's
lookup of the File record with the given absolute path. -/
def fileByPath (db : Database) (p : Path) : Option File :=
  db.files.find? (fun f => f.path = p)

/-- Modelled from the spec: `filesByFingerprint(fp) -> [File]` — all File
records sharing the given fingerprint. -/
def filesByFingerprint (db : Database) (fp : String) : List File :=
  db.files.filter (fun f => f.fingerprint = fp)

/-- Modelled from the spec: `filesByDirectoryPrefix(path) -> [File]` —
all File records whose path is a proper descendant of the directory. -/
def filesByDirectory (db : Database) (dir : Path) : List File :=
  db.files.filter (fun f => isProperUnder f.path dir)

/-- Modelled from the spec: `addFile(path, fingerprint, modTime) -> File`
— append a fresh File record. -/
def dbAddFile (db : Database) (p : Path) (fp : String) (mt : Int) : File × Database :=
  let f : File := ⟨db.nextFileId, p, fp, mt⟩
  (f, { db with files := db.files ++ [f], nextFileId := db.nextFileId + 1 })

/-- Modelled from the spec: `updateFile(id, path, fingerprint, modTime)`
— update the record with the given id in place. -/
def dbUpdateFile (db : Database) (i : Nat) (p : Path) (fp : String) (mt : Int) : Database :=
  { db with files := db.files.map (fun f => if f.id = i then ⟨f.id, p, fp, mt⟩ else f) }

/-- Modelled from the spec: `tagByName(name) -> Tag?`. -/
def tagByName (db : Database) (n : String) : Option Tag :=
  db.tags.find? (fun t => t.name = n)

/-- Modelled from the spec: `addTag(name) -> Tag` — append a fresh Tag
record. -/
def dbAddTag (db : Database) (n : String) : Tag × Database :=
  let t : Tag := ⟨db.nextTagId, n⟩
  (t, { db with tags := db.tags ++ [t], nextTagId := db.nextTagId + 1 })

/-- Modelled from the spec: `fileTagByFileAndTag(fileId, tagId) ->
FileTag?`. -/
def fileTagByFileIdAndTagId (db : Database) (fid tid : Nat) : Option FileTag :=
  db.fileTags.find? (fun ft => ft.fileId = fid ∧ ft.tagId = tid)

/-- Modelled from the spec: `addFileTag(fileId, tagId) -> FileTag`. -/
def dbAddFileTag (db : Database) (fid tid : Nat) : FileTag × Database :=
  let ft : FileTag := ⟨fid, tid⟩
  (ft, { db with fileTags := db.fileTags ++ [ft] })

/-! ## The `tag` command -/

/-- The ways a single tagging step can fail.  `indexOutOfRange` is the Go
runtime's reaction to `tagName[0]` on an empty string — the operation
neither returns an error value nor completes normally. -/
inductive TagError where
  | validationFailed : String → TagError
  | hierarchyConflict : TagError
  | ioFailure : TagError
  | indexOutOfRange : TagError
deriving DecidableEq

/-- The outcome of the tag-name checks at the top of `applyTag`. -/
inductive NameCheck where
  | ok : NameCheck
  | invalid : String → NameCheck
  | indexOutOfRange : NameCheck
deriving DecidableEq

/-- The tag-name checks at the top of `applyTag`, in source order:
commas, then `=`, then spaces (each via `strings.Index != -1`), then the
unguarded byte access `tagName[0] == '-'`, which panics with an index
out of range when the name is empty. -/
def checkTagName (n : String) : NameCheck :=
  if n.data.contains ',' then .invalid "Tag names cannot contain commas."
  else if n.data.contains '=' then .invalid "Tag names cannot contain '='."
  else if n.data.contains ' ' then .invalid "Tag names cannot contain spaces."
  else
    match n.data with
    | [] => .indexOutOfRange
    | c :: _ => if c = '-' then .invalid "Tag names cannot start '-'." else .ok

/-- The second half of `applyTag`: add the FileTag association unless it
already exists.  Returns the tag, the association found by the lookup
(`none` when a new one was just added, as in the source), and the
store. -/
def applyTagAssoc (db : Database) (fileId : Nat) (tag : Tag) :
    Except TagError (Tag × Option FileTag × Database) :=
  match fileTagByFileIdAndTagId db fileId tag.id with
  | some ft => .ok (tag, some ft, db)
  | none => .ok (tag, none, (dbAddFileTag db fileId tag.id).2)

/-- `applyTag(db, path, fileId, tagName)`: validate the tag name, find or
create the Tag record (creation warns on the log, with no other effect),
then add the FileTag association unless it already exists. -/
def applyTag (db : Database) (path : Path) (fileId : Nat) (tagName : String) :
    Except TagError (Tag × Option FileTag × Database) :=
  match checkTagName tagName with
  | .invalid m => .error (.validationFailed m)
  | .indexOutOfRange => .error .indexOutOfRange
  | .ok =>
    match tagByName db tagName with
    | some t => applyTagAssoc db fileId t
    | none => applyTagAssoc (dbAddTag db tagName).2 fileId (dbAddTag db tagName).1

/-- `validateFileAdd(db, path)`: stat the path; for a directory, fail when
the store holds any File under it; for a regular file, fail when the
store holds a File record for its immediate parent directory. -/
def validateFileAdd (root : FSNode) (db : Database) (p : Path) : Except TagError Unit :=
  match statAt root p with
  | none => .error .ioFailure
  | some info =>
    if info.isDir then
      if filesByDirectory db p ≠ [] then .error .hierarchyConflict else .ok ()
    else
      match fileByPath db (parentDir p) with
      | some _ => .error .hierarchyConflict
      | none => .ok ()

/-- `addFile(db, path)`: fingerprint the path, look it up, validate the
hierarchy (unconditionally, also for already-tracked paths), stat it,
then either create a fresh File record (warning about duplicates — a log
side effect with no store effect) or update the existing record when the
modification timestamp changed.  `fpOf` models `fingerprint.Create`
(`none` is a fingerprinting failure).  In the source the `FileByPath`
lookup is bound before the validation and stat calls; all three are pure
reads of unchanged state, so the lookup is inlined at its use site. -/
def addFile (root : FSNode) (fpOf : Path → Option String) (db : Database) (p : Path) :
    Except TagError (File × Database) :=
  match fpOf p with
  | none => .error .ioFailure
  | some fp =>
    match validateFileAdd root db p with
    | .error e => .error e
    | .ok _ =>
      match statAt root p with
      | none => .error .ioFailure
      | some info =>
        match fileByPath db p with
        | none => .ok (dbAddFile db p fp info.modTime)
        | some f =>
          if f.modTime ≠ info.modTime then
            .ok (f, dbUpdateFile db f.id f.path fp info.modTime)
          else
            .ok (f, db)

/-- The tag-application loop of `tagPath`: apply each tag name in turn,
stopping at the first error.  The store mutations of previous iterations
persist (the source has no enclosing transaction), so an error returns
the store as mutated so far. -/
def applyTags (db : Database) (path : Path) (fileId : Nat) :
    List String → Database × Option TagError
  | [] => (db, none)
  | n :: rest =>
    match applyTag db path fileId n with
    | .error e => (db, some e)
    | .ok (_, _, db1) => applyTags db1 path fileId rest

/-- `tagPath(path, tagNames)`: record the file (creating or refreshing
its File record), then apply every tag name.  Returns the store after
the operation along with the error, if any. -/
def tagPath (root : FSNode) (fpOf : Path → Option String) (db : Database)
    (path : Path) (tagNames : List String) : Database × Option TagError :=
  match addFile root fpOf db path with
  | .error e => (db, some e)
  | .ok (f, db1) => applyTags db1 path f.id tagNames

/-- The stores reachable from the empty store by a sequence of `tagPath`
operations against a fixed filesystem tree (failed operations keep their
partial mutations, as in the source, which has no transaction scope). -/
inductive Reachable (root : FSNode) (fpOf : Path → Option String) : Database → Prop where
  | empty : Reachable root fpOf emptyDb
  | step (db : Database) (p : Path) (ns : List String) :
      Reachable root fpOf db → Reachable root fpOf (tagPath root fpOf db p ns).1

/-- The hierarchy invariant that the validator actually maintains: no
File record that the filesystem reports as a regular file has its
immediate parent directory recorded as a File as well. -/
def HierInv (root : FSNode) (db : Database) : Prop :=
  ∀ f ∈ db.files, ∀ info, statAt root f.path = some info → info.isDir = false →
    fileByPath db (parentDir f.path) = none

/-! ## The `status` command classifier -/

/-- The reconciliation status of a path (source: `Status int` constants,
in declaration order). -/
inductive Status where
  | UNTAGGED : Status
  | TAGGED : Status
  | MODIFIED : Status
  | NESTED : Status
  | MISSING : Status
deriving DecidableEq

/-- Whether a status is one of `TAGGED`, `MODIFIED`, `NESTED` — the
statuses of an entry that make an enclosing untagged directory
`NESTED`. -/
def isTMN : Status → Bool
  | .TAGGED => true
  | .MODIFIED => true
  | .NESTED => true
  | _ => false

/-- The outcome of an `os.Stat` call with the error kinds the sources
distinguish. -/
inductive StatResult where
  | ok : StatInfo → StatResult
  | notFound : StatResult
  | permissionDenied : StatResult
  | otherError : StatResult
deriving DecidableEq

/-- `getTaggedPathStatus(entry)`: stat the recorded path; a not-found
failure is `MISSING`, any other stat failure is an error; otherwise
compare the recorded modification timestamp to the live one at second
precision — equal is `TAGGED`, differing is `MODIFIED`. -/
def getTaggedPathStatus (entry : File) (st : StatResult) : Except Unit Status :=
  match st with
  | .notFound => .ok .MISSING
  | .permissionDenied => .error ()
  | .otherError => .error ()
  | .ok info => if entry.modTime = info.modTime then .ok .TAGGED else .ok .MODIFIED

mutual

/-- `getStatus(path, db)` for a path that exists on disk (as the node
`node` of the tree): a store-tracked path compares timestamps (its stat
succeeds, so the `MISSING` branch of `getTaggedPathStatus` cannot fire);
an untracked path falls through to `untaggedStatus`.  In this in-memory
tree model the only stat failure is absence, so the code's fatal
stat/readdir error paths are unreachable and the classifier is total. -/
def nodeStatus (db : Database) (path : Path) (node : FSNode) : Status :=
  match fileByPath db path with
  | some e => if e.modTime = (nodeInfo node).modTime then .TAGGED else .MODIFIED
  | none => untaggedStatus db path node

/-- `getUntaggedPathStatus(path, db)`: a regular file is `UNTAGGED`; a
directory is `NESTED` when any entry's status is `TAGGED`, `MODIFIED` or
`NESTED`, else `UNTAGGED`. -/
def untaggedStatus (db : Database) (path : Path) : FSNode → Status
  | .file _ => .UNTAGGED
  | .dir _ es => if anyTMN db path es then .NESTED else .UNTAGGED

/-- The entry loop of `getUntaggedPathStatus`: whether any directory
entry classifies as `TAGGED`, `MODIFIED` or `NESTED`. -/
def anyTMN (db : Database) (path : Path) : List (String × FSNode) → Bool
  | [] => false
  | (n, c) :: rest => isTMN (nodeStatus db (path ++ [n]) c) || anyTMN db path rest

end

mutual

/-- All proper descendants of a node, as pairs of a relative path and
the node it denotes (specification vocabulary for the classifier
theorems). -/
def descs : FSNode → List (Path × FSNode)
  | .file _ => []
  | .dir _ es => descsList es

/-- All proper descendants reachable through an entry list. -/
def descsList : List (String × FSNode) → List (Path × FSNode)
  | [] => []
  | (n, c) :: rest =>
    ([n], c) :: (descs c).map (fun pd => (n :: pd.1, pd.2)) ++ descsList rest

end

/-- `getStatus(path, db)` for an arbitrary argument path: resolve it in
the tree; a tracked path that no longer exists stats not-found and is
`MISSING`; an untracked path that does not exist fails `IsDir` and is
`UNTAGGED` (the file branch of `getUntaggedPathStatus`). -/
def getStatusArg (db : Database) (root : FSNode) (path : Path) : Status :=
  match findNode root path with
  | some node => nodeStatus db path node
  | none =>
    match fileByPath db path with
    | some _ => .MISSING
    | none => .UNTAGGED

/-- The `status` command's report, one list of paths per status. -/
structure StatusReport where
  tagged : List Path
  modified : List Path
  missing : List Path
  untagged : List Path
  nested : List Path
deriving DecidableEq

/-- The empty report. -/
def emptyReport : StatusReport := ⟨[], [], [], [], []⟩

/-- `addToReport(path, status, report)`: append the path to the list of
its status. -/
def addToReport (path : Path) (s : Status) (r : StatusReport) : StatusReport :=
  match s with
  | .UNTAGGED => { r with untagged := r.untagged ++ [path] }
  | .TAGGED => { r with tagged := r.tagged ++ [path] }
  | .MODIFIED => { r with modified := r.modified ++ [path] }
  | .MISSING => { r with missing := r.missing ++ [path] }
  | .NESTED => { r with nested := r.nested ++ [path] }

/-- `isDir(path)` helper of the status command: stat failure counts as
not-a-directory. -/
def isDirLive (root : FSNode) (p : Path) : Bool :=
  match statAt root p with
  | some info => info.isDir
  | none => false

/-- The direct entry names of the directory at a path (the
`Readdirnames` call; empty when the path is not a live directory). -/
def childNames (root : FSNode) (p : Path) : List String :=
  match findNode root p with
  | some (.dir _ es) => es.map (fun e => e.1)
  | _ => []

/-- The per-argument step of the `status` command's loop: a directory
argument (unless `--directory` was given) with status `UNTAGGED` or
`NESTED` is expanded — each direct entry is reported under its own
status, then store-known descendants that classify `MISSING` are
appended; a directory with status `TAGGED`, `MODIFIED` or `MISSING` is
reported itself.  Every other argument — a non-directory, or any
argument under `--directory` — is reported only when its status is
`MISSING`. -/
def statusArg (db : Database) (root : FSNode) (showDirectory : Bool)
    (r : StatusReport) (path : Path) : StatusReport :=
  if !showDirectory && isDirLive root path then
    match getStatusArg db root path with
    | .TAGGED => addToReport path .TAGGED r
    | .MODIFIED => addToReport path .MODIFIED r
    | .MISSING => addToReport path .MISSING r
    | _ =>
      let r1 := (childNames root path).foldl
        (fun acc n => addToReport (path ++ [n]) (getStatusArg db root (path ++ [n])) acc) r
      (filesByDirectory db path).foldl
        (fun acc f =>
          if getStatusArg db root f.path = .MISSING then
            addToReport f.path .MISSING acc
          else acc) r1
  else
    if getStatusArg db root path = .MISSING then addToReport path .MISSING r else r

/-- The `status` command body: fold the per-argument step over the
argument paths. -/
def statusRun (db : Database) (root : FSNode) (showDirectory : Bool)
    (paths : List Path) : StatusReport :=
  paths.foldl (statusArg db root showDirectory) emptyReport

/-! ## The `dupes` command -/

/-- The overall outcome of `findDuplicatesOf`: a fatal error, the
non-fatal blank error (`errBlank`, chosen so the caller can pick a
non-zero exit code with no message), or success with the probe
responses. -/
inductive DupesResult where
  | fatal : DupesResult
  | blank : DupesResult
  | ok : List (Path × List Path) → DupesResult
deriving DecidableEq

/-- The candidate-checking loop at the top of `findDuplicatesOf`: stat
each candidate; not-found and permission failures are warned about and
noted, any other stat failure returns immediately.  Yields the warned
paths, the `wereErrors` flag, and whether a fatal stat error stopped the
loop. -/
def statPhase (st : Path → StatResult) : List Path → List Path × Bool × Bool
  | [] => ([], false, false)
  | p :: rest =>
    match st p with
    | .ok _ => statPhase st rest
    | .notFound =>
      let (w, _, fatal) := statPhase st rest
      (p :: w, true, fatal)
    | .permissionDenied =>
      let (w, _, fatal) := statPhase st rest
      (p :: w, true, fatal)
    | .otherError => ([], false, true)

/-- The probe loop of `findDuplicatesOf`: fingerprint each candidate
fresh (a fingerprinting failure is fatal, yielding `none`); a candidate
with the empty fingerprint is skipped; otherwise the stored files with
that fingerprint, minus the candidate's own path, are its duplicates,
and an output entry is emitted when there are any. -/
def probeLoop (fpOf : Path → Option String) (db : Database) :
    List Path → Option (List (Path × List Path))
  | [] => some []
  | p :: rest =>
    match fpOf p with
    | none => none
    | some fp =>
      if fp = "" then probeLoop fpOf db rest
      else
        let dupes := (filesByFingerprint db fp).filter (fun f => f.path ≠ p)
          |>.map (fun f => f.path)
        match probeLoop fpOf db rest with
        | none => none
        | some out => some (if dupes = [] then out else (p, dupes) :: out)

/-- `findDuplicatesOf(store, tx, paths, recursive)`: check every
candidate path first; if any check failed, return the blank error
immediately — before any duplicate detection; otherwise expand the paths
when `--recursive` was given (`enum` models `filesystem.Enumerate`, an
external collaborator) and run the probe loop.  Returns the warned paths
and the outcome. -/
def findDuplicatesOf (st : Path → StatResult) (fpOf : Path → Option String)
    (enum : List Path → List Path) (db : Database) (paths : List Path)
    (recursive : Bool) : List Path × DupesResult :=
  let (warnings, wereErrors, fatal) := statPhase st paths
  if fatal then (warnings, .fatal)
  else if wereErrors then (warnings, .blank)
  else
    let paths1 := if recursive then enum paths else paths
    match probeLoop fpOf db paths1 with
    | none => (warnings, .fatal)
    | some outs => (warnings, .ok outs)

/-- Whether a stat outcome is one of the two per-candidate warning cases
of `findDuplicatesOf` (not-found or permission denied). -/
def isWarnStat : StatResult → Bool
  | .notFound => true
  | .permissionDenied => true
  | _ => false

/-- Modelled from the spec: `store.DuplicateFiles` (global mode) —
partition all Files by fingerprint, keep only groups of two or more, and
exclude files with the empty fingerprint from all groups. -/
def duplicateFiles (db : Database) : List (List File) :=
  ((db.files.map (fun f => f.fingerprint)).dedup.filter (fun fp => fp ≠ "")).filterMap
    (fun fp =>
      let g := db.files.filter (fun f => f.fingerprint = fp)
      if 2 ≤ g.length then some g else none)

/-! ## Concrete fixtures for counterexamples and witnesses -/

/-- Dupes fixture: `/gone` does not exist, everything else stats as a
regular file. -/
def stC1 : Path → StatResult := fun p => if p = ["gone"] then .notFound else .ok ⟨false, 0⟩

/-- Dupes fixture: only `/good` can be fingerprinted. -/
def fpC1 : Path → Option String := fun p => if p = ["good"] then some "abc" else none

/-- Dupes fixture: two stored files share fingerprint `abc`. -/
def dbC1 : Database := ⟨[⟨0, ["x"], "abc", 0⟩, ⟨1, ["y"], "abc", 0⟩], [], [], 2, 0⟩

/-- Tagging fixture: a root directory holding the regular file `/a`. -/
def rootC2 : FSNode := .dir 0 [("a", .file 3)]

/-- Tagging fixture: `/a` fingerprints to `fp`. -/
def fpC2 : Path → Option String := fun p => if p = ["a"] then some "fp" else none

/-- Tagging fixture: `/a` is a directory holding the regular file
`/a/b`. -/
def rootC3 : FSNode := .dir 0 [("a", .dir 1 [("b", .file 2)])]

/-- Tagging fixture: `/a/b` fingerprints to `g`. -/
def fpC3 : Path → Option String := fun p => if p = ["a", "b"] then some "g" else none

/-- Tagging fixture: a store already tracking both `/a` and `/a/b`. -/
def dbC3 : Database := ⟨[⟨0, ["a"], "f", 1⟩, ⟨1, ["a", "b"], "g", 2⟩], [], [], 2, 0⟩

/-- Hierarchy fixture: `/a` is a directory, `/a/b` a subdirectory, and
`/a/b/c.txt` a regular file. -/
def rootC4 : FSNode := .dir 0 [("a", .dir 1 [("b", .dir 2 [("c.txt", .file 3)])])]

/-- Hierarchy fixture: fingerprints for `/a` and `/a/b/c.txt`. -/
def fpC4 : Path → Option String := fun p =>
  if p = ["a"] then some "fpA" else if p = ["a", "b", "c.txt"] then some "fpC" else none

/-- Hierarchy fixture: the store after tagging `/a` with `t`. -/
def dbC4a : Database := ⟨[⟨0, ["a"], "fpA", 1⟩], [⟨0, "t"⟩], [⟨0, 0⟩], 1, 1⟩

/-- Hierarchy fixture: the store after then tagging `/a/b/c.txt` with
`t` — it holds File records at both `/a` and `/a/b/c.txt`. -/
def dbC4b : Database :=
  ⟨[⟨0, ["a"], "fpA", 1⟩, ⟨1, ["a", "b", "c.txt"], "fpC", 3⟩], [⟨0, "t"⟩], [⟨0, 0⟩, ⟨1, 0⟩], 2, 1⟩

/-! ## Theorems -/

/-- C10: tag-name validation is not total — for the empty tag name,
`applyTag` reaches the unguarded `tagName[0]` access and neither returns
a `ValidationError` nor completes normally: it panics with an index out
of range. -/
theorem c10_applyTag_empty_name_panics :
    ∀ (db : Database) (p : Path) (fid : Nat),
      applyTag db p fid "" = .error .indexOutOfRange ∧
      (∀ m, applyTag db p fid "" ≠ .error (.validationFailed m)) ∧
      (∀ r, applyTag db p fid "" ≠ .ok r) := by
  intro db p fid
  have h : applyTag db p fid "" = .error .indexOutOfRange := rfl
  refine ⟨h, fun m => ?_, fun r => ?_⟩ <;> simp [h]

/-- C10 witness: the panic outcome at a concrete store. -/
theorem c10_witness : applyTag emptyDb [] 0 "" = .error .indexOutOfRange :=
  (c10_applyTag_empty_name_panics emptyDb [] 0).1

/-- C5: for a path with a File record, a not-found stat yields `MISSING`;
a successful stat yields `TAGGED` when the stored and live modification
timestamps agree at second precision and `MODIFIED` when they differ; and
any other stat failure aborts classification with an error rather than a
status. -/
theorem c5_tagged_path_classification :
    ∀ (db : Database) (p : Path) (entry : File) (st : StatResult),
      fileByPath db p = some entry →
      (st = .notFound → getTaggedPathStatus entry st = .ok .MISSING) ∧
      (∀ info, st = .ok info → entry.modTime = info.modTime →
        getTaggedPathStatus entry st = .ok .TAGGED) ∧
      (∀ info, st = .ok info → entry.modTime ≠ info.modTime →
        getTaggedPathStatus entry st = .ok .MODIFIED) ∧
      ((st = .permissionDenied ∨ st = .otherError) →
        getTaggedPathStatus entry st = .error ()) := by
  intro db p entry st _
  refine ⟨fun h => ?_, fun info h heq => ?_, fun info h hne => ?_, fun h => ?_⟩
  · subst h; rfl
  · subst h; simp [getTaggedPathStatus, heq]
  · subst h; simp [getTaggedPathStatus, hne]
  · rcases h with h | h <;> subst h <;> rfl

/-- C5 witness: a concrete tracked file classified at each stat
outcome. -/
theorem c5_witness :
    fileByPath ⟨[⟨0, ["a"], "f", 5⟩], [], [], 1, 0⟩ ["a"] = some ⟨0, ["a"], "f", 5⟩ ∧
    getTaggedPathStatus ⟨0, ["a"], "f", 5⟩ .notFound = .ok .MISSING ∧
    getTaggedPathStatus ⟨0, ["a"], "f", 5⟩ (.ok ⟨false, 5⟩) = .ok .TAGGED ∧
    getTaggedPathStatus ⟨0, ["a"], "f", 5⟩ (.ok ⟨false, 7⟩) = .ok .MODIFIED ∧
    getTaggedPathStatus ⟨0, ["a"], "f", 5⟩ .otherError = .error () := by
  have h := c5_tagged_path_classification ⟨[⟨0, ["a"], "f", 5⟩], [], [], 1, 0⟩ ["a"]
    ⟨0, ["a"], "f", 5⟩
  exact ⟨by decide,
    (h .notFound (by decide)).1 rfl,
    (h (.ok ⟨false, 5⟩) (by decide)).2.1 ⟨false, 5⟩ rfl (by decide),
    (h (.ok ⟨false, 7⟩) (by decide)).2.2.1 ⟨false, 7⟩ rfl (by decide),
    (h .otherError (by decide)).2.2.2 (Or.inr rfl)⟩

/-- C9: in the status command, an argument that is not a live directory —
or any argument when directory-listing mode is on — is reported only when
its status is `MISSING`; with any other status it produces no report
entry at all. -/
theorem c9_nondirectory_args_only_missing :
    ∀ (db : Database) (root : FSNode) (showDirectory : Bool) (r : StatusReport) (p : Path),
      (showDirectory = true ∨ isDirLive root p = false) →
      (getStatusArg db root p ≠ .MISSING → statusArg db root showDirectory r p = r) ∧
      (getStatusArg db root p = .MISSING →
        statusArg db root showDirectory r p = addToReport p .MISSING r) := by
  intro db root showDirectory r p hmode
  have hcond : (!showDirectory && isDirLive root p) = false := by
    rcases hmode with h | h <;> simp [h]
  constructor
  · intro hne
    simp [statusArg, hcond, hne]
  · intro hmiss
    simp [statusArg, hcond, hmiss]

/-- C9 witness: a concrete tagged plain-file argument leaves the report
untouched. -/
theorem c9_witness :
    isDirLive (FSNode.dir 0 [("a", .file 3)]) ["a"] = false ∧
    getStatusArg ⟨[⟨0, ["a"], "f", 3⟩], [], [], 1, 0⟩ (FSNode.dir 0 [("a", .file 3)]) ["a"]
      ≠ .MISSING ∧
    statusArg ⟨[⟨0, ["a"], "f", 3⟩], [], [], 1, 0⟩ (FSNode.dir 0 [("a", .file 3)]) false
      emptyReport ["a"] = emptyReport := by
  have hdir : isDirLive (FSNode.dir 0 [("a", .file 3)]) ["a"] = false := by decide
  have hstat : getStatusArg ⟨[⟨0, ["a"], "f", 3⟩], [], [], 1, 0⟩
      (FSNode.dir 0 [("a", .file 3)]) ["a"] = .TAGGED := by
    simp [getStatusArg, findNode, lookupEntry, nodeStatus, fileByPath, nodeInfo, List.find?]
  refine ⟨hdir, by simp [hstat], ?_⟩
  exact (c9_nondirectory_args_only_missing ⟨[⟨0, ["a"], "f", 3⟩], [], [], 1, 0⟩
    (FSNode.dir 0 [("a", .file 3)]) false emptyReport ["a"] (Or.inr hdir)).1 (by simp [hstat])

/-- C3 counterexample: re-tagging `/a/b`, which already has a File
record, still runs the hierarchy validator and fails with a hierarchy
conflict, because `addFile` calls `validateFileAdd` unconditionally. -/
theorem c3_counterexample :
    fileByPath dbC3 ["a", "b"] = some ⟨1, ["a", "b"], "g", 2⟩ ∧
    addFile rootC3 fpC3 dbC3 ["a", "b"] = .error .hierarchyConflict := by
  decide

/-- C3 amended: hierarchy validation runs for every tagging operation,
including paths that already have a File record — whenever the validator
fails, `addFile` fails with the same error even though the path is
already tracked (re-tagging an existing File re-runs the check and can
fail with a hierarchy conflict). -/
theorem c3_amended_validation_unconditional :
    ∀ (root : FSNode) (fpOf : Path → Option String) (db : Database) (p : Path)
      (fp : String) (f : File) (e : TagError),
      fileByPath db p = some f →
      fpOf p = some fp →
      validateFileAdd root db p = .error e →
      addFile root fpOf db p = .error e := by
  intro root fpOf db p fp f e _ hfp hval
  simp [addFile, hfp, hval]

/-- C3 witness: the amended statement at the concrete fixture. -/
theorem c3_witness :
    addFile rootC3 fpC3 dbC3 ["a", "b"] = .error .hierarchyConflict :=
  c3_amended_validation_unconditional rootC3 fpC3 dbC3 ["a", "b"] "g"
    ⟨1, ["a", "b"], "g", 2⟩ .hierarchyConflict (by decide) (by decide) (by decide)

/-- When no candidate stats with a fatal (other-than-not-found,
other-than-permission) error, the candidate-checking loop warns exactly
about the failing candidates and sets `wereErrors` iff there is one. -/
theorem statPhase_no_fatal (st : Path → StatResult) :
    ∀ paths : List Path, (∀ p ∈ paths, st p ≠ .otherError) →
      statPhase st paths =
        (paths.filter (fun p => isWarnStat (st p)),
         paths.any (fun p => isWarnStat (st p)), false) := by
  intro paths h
  induction paths with
  | nil => rfl
  | cons p rest ih =>
    have hp : st p ≠ .otherError := h p (by simp)
    have hrest := ih (fun q hq => h q (by simp [hq]))
    cases hst : st p with
    | ok info => simp [statPhase, hst, hrest, isWarnStat]
    | notFound => simp [statPhase, hst, hrest, isWarnStat]
    | permissionDenied => simp [statPhase, hst, hrest, isWarnStat]
    | otherError => exact absurd hst hp

/-- C1 counterexample: with candidates `/good` (fine, and having two
stored duplicates) and `/gone` (missing), the whole run warns about
`/gone` and returns the blank error with no duplicate output at all —
even though probing `/good` alone would have reported its two
duplicates.  The operation does not complete for the valid candidate. -/
theorem c1_counterexample :
    findDuplicatesOf stC1 fpC1 id dbC1 [["good"], ["gone"]] false = ([["gone"]], .blank) ∧
    probeLoop fpC1 dbC1 [["good"]] = some [(["good"], [["x"], ["y"]])] := by
  decide

/-- C1 amended: when at least one candidate path does not exist or is
unreadable (and none fails with a fatal stat error), every failing
candidate is reported as a per-path warning and the operation signals the
non-fatal blank error — but it aborts before performing duplicate
detection for any candidate, the valid ones included. -/
theorem c1_amended_partial_failure_aborts :
    ∀ (st : Path → StatResult) (fpOf : Path → Option String)
      (enum : List Path → List Path) (db : Database) (paths : List Path)
      (recursive : Bool),
      (∀ p ∈ paths, st p ≠ .otherError) →
      (∃ p ∈ paths, isWarnStat (st p) = true) →
      findDuplicatesOf st fpOf enum db paths recursive =
        (paths.filter (fun p => isWarnStat (st p)), .blank) := by
  intro st fpOf enum db paths recursive hnf hex
  have hany : paths.any (fun p => isWarnStat (st p)) = true := by
    rcases hex with ⟨p, hp, hw⟩
    exact List.any_eq_true.mpr ⟨p, hp, hw⟩
  simp [findDuplicatesOf, statPhase_no_fatal st paths hnf, hany]

/-- C1 witness: the amended statement at the concrete fixture. -/
theorem c1_witness :
    findDuplicatesOf stC1 fpC1 id dbC1 [["good"], ["gone"]] false = ([["gone"]], .blank) ∧
    [["good"], ["gone"]].filter (fun p => isWarnStat (stC1 p)) = [["gone"]] := by
  refine ⟨?_, by decide⟩
  have h := c1_amended_partial_failure_aborts stC1 fpC1 id dbC1 [["good"], ["gone"]] false
    (by decide) ⟨["gone"], by decide, by decide⟩
  rw [h]; decide

/-- Successful `addFile` runs touch only the `files` side of the store:
tags, associations and the tag counter are unchanged. -/
theorem addFile_preserves_tags :
    ∀ (root : FSNode) (fpOf : Path → Option String) (db : Database) (p : Path)
      (f : File) (db1 : Database),
      addFile root fpOf db p = .ok (f, db1) →
      db1.tags = db.tags ∧ db1.fileTags = db.fileTags := by
  intro root fpOf db p f db1 h
  unfold addFile at h
  split at h
  · exact absurd h (by simp)
  · split at h
    · exact absurd h (by simp)
    · split at h
      · exact absurd h (by simp)
      · split at h
        · simp only [dbAddFile, Except.ok.injEq, Prod.mk.injEq] at h
          obtain ⟨-, h2⟩ := h
          subst h2
          exact ⟨rfl, rfl⟩
        · split at h
          · simp only [dbUpdateFile, Except.ok.injEq, Prod.mk.injEq] at h
            obtain ⟨-, h2⟩ := h
            subst h2
            exact ⟨rfl, rfl⟩
          · simp only [Except.ok.injEq, Prod.mk.injEq] at h
            obtain ⟨-, h2⟩ := h
            subst h2
            exact ⟨rfl, rfl⟩

/-- C2 counterexample: tagging the fresh path `/a` with the malformed
tag name `foo=bar` fails with a `ValidationError`, yet the store state
after the failed operation differs from the store state before it — the
File record for `/a` was created by `addFile` before tag-name validation
ran. -/
theorem c2_counterexample :
    (tagPath rootC2 fpC2 emptyDb ["a"] ["foo=bar"]).2 =
      some (.validationFailed "Tag names cannot contain '='.") ∧
    (tagPath rootC2 fpC2 emptyDb ["a"] ["foo=bar"]).1 ≠ emptyDb ∧
    (tagPath rootC2 fpC2 emptyDb ["a"] ["foo=bar"]).1.files = [⟨0, ["a"], "fp", 3⟩] := by
  decide

/-- C2 amended: a malformed tag name makes the operation fail with a
`ValidationError` before any Tag or FileTag write — no Tag or FileTag
record is created — but only after `addFile` has already created or
refreshed the File record for the path, so the store's file table may
differ from its state before the operation. -/
theorem c2_amended_validation_after_file_write :
    ∀ (root : FSNode) (fpOf : Path → Option String) (db : Database) (p : Path)
      (n m : String) (f : File) (db1 : Database),
      addFile root fpOf db p = .ok (f, db1) →
      checkTagName n = .invalid m →
      tagPath root fpOf db p [n] = (db1, some (.validationFailed m)) ∧
      db1.tags = db.tags ∧ db1.fileTags = db.fileTags := by
  intro root fpOf db p n m f db1 hadd hbad
  refine ⟨?_, addFile_preserves_tags root fpOf db p f db1 hadd⟩
  simp [tagPath, hadd, applyTags, applyTag, hbad]

/-- C2 witness: the amended statement at the concrete fixture. -/
theorem c2_witness :
    tagPath rootC2 fpC2 emptyDb ["a"] ["foo=bar"] =
      (⟨[⟨0, ["a"], "fp", 3⟩], [], [], 1, 0⟩,
        some (.validationFailed "Tag names cannot contain '='.")) := by
  have h := c2_amended_validation_after_file_write rootC2 fpC2 emptyDb ["a"]
    "foo=bar" "Tag names cannot contain '='." ⟨0, ["a"], "fp", 3⟩
    ⟨[⟨0, ["a"], "fp", 3⟩], [], [], 1, 0⟩ (by decide) (by decide)
  exact h.1

/-- C8: empty-fingerprint files are never reported as duplicates.  In
probe mode a candidate whose fresh fingerprint is empty is skipped with
no output and no error (the loop continues exactly as if the candidate
were absent), and in global mode no group contains an empty-fingerprint
file. -/
theorem c8_empty_fingerprint_never_duplicate :
    (∀ (fpOf : Path → Option String) (db : Database) (p : Path) (rest : List Path),
      fpOf p = some "" → probeLoop fpOf db (p :: rest) = probeLoop fpOf db rest) ∧
    (∀ (db : Database) (g : List File) (f : File),
      g ∈ duplicateFiles db → f ∈ g → f.fingerprint ≠ "") := by
  constructor
  · intro fpOf db p rest h
    simp [probeLoop, h]
  · intro db g f hg hf
    unfold duplicateFiles at hg
    rcases List.mem_filterMap.mp hg with ⟨fp, hfp, hsome⟩
    have hne : fp ≠ "" := by
      have := List.mem_filter.mp hfp
      simpa using this.2
    have hgeq : g = db.files.filter (fun f => f.fingerprint = fp) := by
      by_cases hlen : 2 ≤ (db.files.filter (fun f => f.fingerprint = fp)).length
      · simp only [hlen, if_pos] at hsome
        injection hsome with h1
        exact h1.symm
      · simp [hlen] at hsome
    rw [hgeq] at hf
    have := List.mem_filter.mp hf
    have hfpf : f.fingerprint = fp := by simpa using this.2
    rw [hfpf]
    exact hne

/-- C8 witness: a concrete empty-fingerprint candidate is skipped, and a
concrete member of a concrete global duplicate group has a non-empty
fingerprint. -/
theorem c8_witness :
    probeLoop (fun _ => some "") dbC1 [["e"]] = probeLoop (fun _ => some "") dbC1 [] ∧
    [⟨0, ["x"], "abc", 0⟩, ⟨1, ["y"], "abc", 0⟩] ∈ duplicateFiles dbC1 ∧
    File.fingerprint ⟨0, ["x"], "abc", 0⟩ ≠ "" := by
  refine ⟨c8_empty_fingerprint_never_duplicate.1 (fun _ => some "") dbC1 ["e"] [] rfl,
    ?_, ?_⟩
  · decide
  · exact c8_empty_fingerprint_never_duplicate.2 dbC1
      [⟨0, ["x"], "abc", 0⟩, ⟨1, ["y"], "abc", 0⟩] ⟨0, ["x"], "abc", 0⟩ (by decide) (by decide)

/-- Searching a list extended on the right, when the original search
found nothing, finds the new element exactly when it matches. -/
theorem find?_append_singleton {α : Type} (q : α → Bool) (l : List α) (a : α)
    (h : l.find? q = none) :
    (l ++ [a]).find? q = if q a then some a else none := by
  induction l with
  | nil => cases hqa : q a <;> simp [List.find?, hqa]
  | cons x xs ih =>
    cases hx : q x with
    | true => simp [List.find?, hx] at h
    | false =>
      have h' : xs.find? q = none := by simpa [List.find?, hx] using h
      simpa [List.find?, hx] using ih h'

/-- C7: applying a tag is idempotent with respect to the FileTag
association.  When the association already exists, `applyTag` performs no
store write and returns success; consequently applying the same tag to
the same file twice returns the once-tagged store unchanged, leaving
exactly one association. -/
theorem c7_applyTag_idempotent :
    (∀ (db : Database) (p : Path) (fid : Nat) (n : String) (t : Tag) (ft : FileTag),
      checkTagName n = .ok → tagByName db n = some t →
      fileTagByFileIdAndTagId db fid t.id = some ft →
      applyTag db p fid n = .ok (t, some ft, db)) ∧
    (∀ (db : Database) (p : Path) (fid : Nat) (n : String) (t : Tag)
      (oft : Option FileTag) (db1 : Database),
      applyTag db p fid n = .ok (t, oft, db1) →
      ∃ ft, applyTag db1 p fid n = .ok (t, some ft, db1)) := by
  have hassoc : ∀ (db : Database) (fid : Nat) (t : Tag),
      fileTagByFileIdAndTagId db fid t.id = none →
      fileTagByFileIdAndTagId (dbAddFileTag db fid t.id).2 fid t.id = some ⟨fid, t.id⟩ := by
    intro db fid t h
    have := find?_append_singleton
      (fun ft : FileTag => decide (ft.fileId = fid ∧ ft.tagId = t.id)) db.fileTags
      ⟨fid, t.id⟩ h
    simpa [fileTagByFileIdAndTagId, dbAddFileTag] using this
  constructor
  · intro db p fid n t ft hn ht hft
    simp [applyTag, hn, ht, applyTagAssoc, hft]
  · intro db p fid n t oft db1 h
    cases hn : checkTagName n with
    | invalid m => simp [applyTag, hn] at h
    | indexOutOfRange => simp [applyTag, hn] at h
    | ok =>
    cases ht : tagByName db n with
    | some t0 =>
      cases hft : fileTagByFileIdAndTagId db fid t0.id with
      | some ft0 =>
        simp only [applyTag, hn, ht, applyTagAssoc, hft, Except.ok.injEq, Prod.mk.injEq] at h
        obtain ⟨rfl, -, rfl⟩ := h
        exact ⟨ft0, by simp [applyTag, hn, ht, applyTagAssoc, hft]⟩
      | none =>
        simp only [applyTag, hn, ht, applyTagAssoc, hft, Except.ok.injEq, Prod.mk.injEq] at h
        obtain ⟨rfl, -, rfl⟩ := h
        have ht1 : tagByName (dbAddFileTag db fid t0.id).2 n = some t0 := by
          simpa [tagByName, dbAddFileTag] using ht
        have hft1 := hassoc db fid t0 hft
        exact ⟨⟨fid, t0.id⟩, by simp [applyTag, hn, ht1, applyTagAssoc, hft1]⟩
    | none =>
      have ht1 : tagByName (dbAddTag db n).2 n = some (dbAddTag db n).1 := by
        have := find?_append_singleton (fun t : Tag => decide (t.name = n)) db.tags
          (dbAddTag db n).1 ht
        simpa [tagByName, dbAddTag] using this
      cases hft : fileTagByFileIdAndTagId (dbAddTag db n).2 fid (dbAddTag db n).1.id with
      | some ft0 =>
        simp only [applyTag, hn, ht, applyTagAssoc, hft, Except.ok.injEq, Prod.mk.injEq] at h
        obtain ⟨rfl, -, rfl⟩ := h
        exact ⟨ft0, by simp [applyTag, hn, ht1, applyTagAssoc, hft]⟩
      | none =>
        simp only [applyTag, hn, ht, applyTagAssoc, hft, Except.ok.injEq, Prod.mk.injEq] at h
        obtain ⟨rfl, -, rfl⟩ := h
        have ht2 : tagByName (dbAddFileTag (dbAddTag db n).2 fid (dbAddTag db n).1.id).2 n =
            some (dbAddTag db n).1 := by
          simpa [tagByName, dbAddFileTag] using ht1
        have hft2 := hassoc (dbAddTag db n).2 fid (dbAddTag db n).1 hft
        exact ⟨⟨fid, (dbAddTag db n).1.id⟩, by simp [applyTag, hn, ht2, applyTagAssoc, hft2]⟩

/-- C7 witness: tagging a concrete file twice with the same tag leaves
the store of the first application unchanged, with its single
association. -/
theorem c7_witness :
    applyTag ⟨[⟨0, ["a"], "f", 3⟩], [], [], 1, 0⟩ ["a"] 0 "music" =
      .ok (⟨0, "music"⟩, none, ⟨[⟨0, ["a"], "f", 3⟩], [⟨0, "music"⟩], [⟨0, 0⟩], 1, 1⟩) ∧
    (∃ ft, applyTag ⟨[⟨0, ["a"], "f", 3⟩], [⟨0, "music"⟩], [⟨0, 0⟩], 1, 1⟩ ["a"] 0 "music" =
      .ok (⟨0, "music"⟩, some ft, ⟨[⟨0, ["a"], "f", 3⟩], [⟨0, "music"⟩], [⟨0, 0⟩], 1, 1⟩)) := by
  have h1 : applyTag ⟨[⟨0, ["a"], "f", 3⟩], [], [], 1, 0⟩ ["a"] 0 "music" =
      .ok (⟨0, "music"⟩, none, ⟨[⟨0, ["a"], "f", 3⟩], [⟨0, "music"⟩], [⟨0, 0⟩], 1, 1⟩) := by
    decide
  exact ⟨h1, c7_applyTag_idempotent.2 ⟨[⟨0, ["a"], "f", 3⟩], [], [], 1, 0⟩ ["a"] 0 "music"
    ⟨0, "music"⟩ none ⟨[⟨0, ["a"], "f", 3⟩], [⟨0, "music"⟩], [⟨0, 0⟩], 1, 1⟩ h1⟩

/-- Unfolding `nodeStatus` for an untracked directory: the entry scan
decides between `NESTED` and `UNTAGGED`. -/
theorem nodeStatus_dir_no_record (db : Database) (path : Path) (mt : Int)
    (es : List (String × FSNode)) (h : fileByPath db path = none) :
    nodeStatus db path (.dir mt es) =
      if anyTMN db path es then .NESTED else .UNTAGGED := by
  rw [nodeStatus, h, untaggedStatus]

/-- A node with a File record classifies as `TAGGED`, `MODIFIED` or
`NESTED` whenever its entry scan does — with a record it is `TAGGED` or
`MODIFIED` outright, without one the scan makes it `NESTED`. -/
theorem nodeStatus_dir_of_anyTMN (db : Database) (path : Path) (mt : Int)
    (es : List (String × FSNode)) (h : anyTMN db path es = true) :
    isTMN (nodeStatus db path (.dir mt es)) = true := by
  rw [nodeStatus]
  cases hf : fileByPath db path with
  | some e =>
    by_cases he : e.modTime = (nodeInfo (FSNode.dir mt es)).modTime <;> simp [he, isTMN]
  | none => rw [untaggedStatus, h]; rfl

/-- Membership in an entry list's descendant enumeration: either a direct
entry, or a descendant of a direct entry one level down. -/
theorem mem_descsList (q : Path) (d : FSNode) (es : List (String × FSNode)) :
    (q, d) ∈ descsList es →
    ∃ n c, (n, c) ∈ es ∧
      ((q = [n] ∧ d = c) ∨ ∃ q', q = n :: q' ∧ (q', d) ∈ descs c) := by
  induction es with
  | nil => intro h; simp [descsList] at h
  | cons e rest ih =>
    obtain ⟨n0, c0⟩ := e
    intro h
    rw [descsList] at h
    rcases List.mem_cons.mp h with h | h
    · rw [Prod.mk.injEq] at h
      exact ⟨n0, c0, List.mem_cons_self _ _, Or.inl h⟩
    · rcases List.mem_append.mp h with h | h
      · rcases List.mem_map.mp h with ⟨qd, hqd, hpd⟩
        rw [Prod.mk.injEq] at hpd
        refine ⟨n0, c0, List.mem_cons_self _ _, Or.inr ⟨qd.1, hpd.1.symm, ?_⟩⟩
        rw [← hpd.2]
        exact hqd
      · rcases ih h with ⟨n, c, hmem, hcase⟩
        exact ⟨n, c, List.mem_cons_of_mem _ hmem, hcase⟩

/-- A direct entry appears in the descendant enumeration under its own
single-component relative path. -/
theorem direct_mem_descsList (n : String) (c : FSNode) (es : List (String × FSNode)) :
    (n, c) ∈ es → ([n], c) ∈ descsList es := by
  induction es with
  | nil => intro h; simp at h
  | cons e rest ih =>
    obtain ⟨n0, c0⟩ := e
    intro h
    rw [descsList]
    rcases List.mem_cons.mp h with h | h
    · rw [Prod.mk.injEq] at h
      rw [h.1, h.2]
      exact List.mem_cons_self _ _
    · exact List.mem_cons_of_mem _ (List.mem_append_right _ (ih h))

/-- The entry scan fires when some entry classifies `TAGGED`, `MODIFIED`
or `NESTED`. -/
theorem anyTMN_of_mem (db : Database) (path : Path) (n : String) (c : FSNode)
    (es : List (String × FSNode)) (hmem : (n, c) ∈ es)
    (h : isTMN (nodeStatus db (path ++ [n]) c) = true) : anyTMN db path es = true := by
  induction es with
  | nil => simp at hmem
  | cons e rest ih =>
    obtain ⟨n0, c0⟩ := e
    rw [anyTMN]
    rcases List.mem_cons.mp hmem with hh | hh
    · rw [Prod.mk.injEq] at hh
      rw [← hh.1, ← hh.2, h]
      rfl
    · rw [ih hh, Bool.or_true]

/-- Conversely, a firing entry scan names an entry that classifies
`TAGGED`, `MODIFIED` or `NESTED`. -/
theorem anyTMN_exists (db : Database) (path : Path) :
    ∀ es : List (String × FSNode), anyTMN db path es = true →
      ∃ n c, (n, c) ∈ es ∧ isTMN (nodeStatus db (path ++ [n]) c) = true := by
  intro es
  induction es with
  | nil => intro h; rw [anyTMN] at h; exact absurd h (by simp)
  | cons e rest ih =>
    obtain ⟨n0, c0⟩ := e
    intro h
    rw [anyTMN] at h
    rcases Bool.or_eq_true_iff.mp h with h | h
    · exact ⟨n0, c0, List.mem_cons_self _ _, h⟩
    · rcases ih h with ⟨n, c, hmem, hc⟩
      exact ⟨n, c, List.mem_cons_of_mem _ hmem, hc⟩

/-- A `TAGGED`, `MODIFIED` or `NESTED` verdict at any proper descendant
propagates up to the node itself:  every node on the way either carries
a File record (hence classifies `TAGGED` or `MODIFIED`) or sees the
verdict through its entry scan (hence classifies `NESTED`). -/
theorem isTMN_of_desc (db : Database) :
    ∀ (k : Nat) (q : Path) (c : FSNode) (path : Path) (d : FSNode),
      q.length ≤ k → (q, d) ∈ descs c →
      isTMN (nodeStatus db (path ++ q) d) = true →
      isTMN (nodeStatus db path c) = true := by
  intro k
  induction k with
  | zero =>
    intro q c path d hlen hmem _
    cases c with
    | file mt => rw [descs] at hmem; simp at hmem
    | dir mt es =>
      rw [descs] at hmem
      rcases mem_descsList q d es hmem with ⟨n, c0, -, hcase⟩
      have hq : q = [] := List.length_eq_zero.mp (Nat.le_zero.mp hlen)
      rcases hcase with ⟨hh, -⟩ | ⟨p', hp', -⟩
      · rw [hq] at hh
        exact absurd hh (by simp)
      · rw [hq] at hp'
        exact absurd hp' (by simp)
  | succ k ih =>
    intro q c path d hlen hmem htmn
    cases c with
    | file mt => rw [descs] at hmem; simp at hmem
    | dir mt es =>
      rw [descs] at hmem
      rcases mem_descsList q d es hmem with ⟨n, c0, hnc, hcase⟩
      rcases hcase with ⟨h1, h2⟩ | ⟨p', hp', hmem'⟩
      · rw [h1, h2] at htmn
        exact nodeStatus_dir_of_anyTMN db path mt es (anyTMN_of_mem db path n c0 es hnc htmn)
      · have hassoc : path ++ q = (path ++ [n]) ++ p' := by
          rw [hp', List.append_assoc]; rfl
        rw [hassoc] at htmn
        have hlen' : p'.length ≤ k := by
          have hq : q.length = p'.length + 1 := by rw [hp']; rfl
          omega
        have h3 := ih p' c0 (path ++ [n]) d hlen' hmem' htmn
        exact nodeStatus_dir_of_anyTMN db path mt es (anyTMN_of_mem db path n c0 es hnc h3)

/-- C6: an on-disk directory with no File record classifies `NESTED` iff
some direct entry or, recursively, some deeper descendant classifies
`TAGGED`, `MODIFIED` or `NESTED`; otherwise it classifies `UNTAGGED`. -/
theorem c6_untagged_directory_nested :
    ∀ (db : Database) (path : Path) (mt : Int) (es : List (String × FSNode)),
      fileByPath db path = none →
      ((nodeStatus db path (.dir mt es) = .NESTED ↔
        ∃ pd ∈ descsList es, isTMN (nodeStatus db (path ++ pd.1) pd.2) = true) ∧
       (¬ (∃ pd ∈ descsList es, isTMN (nodeStatus db (path ++ pd.1) pd.2) = true) →
        nodeStatus db path (.dir mt es) = .UNTAGGED)) := by
  intro db path mt es hrec
  have hunfold := nodeStatus_dir_no_record db path mt es hrec
  have hiff : nodeStatus db path (.dir mt es) = .NESTED ↔
      ∃ pd ∈ descsList es, isTMN (nodeStatus db (path ++ pd.1) pd.2) = true := by
    constructor
    · intro hn
      rw [hunfold] at hn
      by_cases hany : anyTMN db path es = true
      · rcases anyTMN_exists db path es hany with ⟨n, c, hmem, hc⟩
        exact ⟨([n], c), direct_mem_descsList n c es hmem, hc⟩
      · rw [if_neg hany] at hn
        exact absurd hn (by simp)
    · intro ⟨pd, hmem, htmn⟩
      have hdesc : (pd.1, pd.2) ∈ descs (FSNode.dir mt es) := by
        rw [descs]; exact hmem
      have := isTMN_of_desc db pd.1.length pd.1 (.dir mt es) path pd.2
        (Nat.le_refl _) hdesc htmn
      rw [hunfold] at this ⊢
      by_cases hany : anyTMN db path es = true
      · rw [if_pos hany]
      · rw [if_neg hany] at this
        exact absurd this (by simp [isTMN])
  refine ⟨hiff, fun hne => ?_⟩
  rw [hunfold]
  by_cases hany : anyTMN db path es = true
  · rcases anyTMN_exists db path es hany with ⟨n, c, hmem, hc⟩
    exact absurd ⟨([n], c), direct_mem_descsList n c es hmem, hc⟩ hne
  · rw [if_neg hany]

/-- C6 witness: the root directory, untracked itself but holding the
tracked, unmodified file `/x`, classifies `NESTED` via its descendant. -/
theorem c6_witness :
    fileByPath ⟨[⟨0, ["x"], "f", 5⟩], [], [], 1, 0⟩ [] = none ∧
    nodeStatus ⟨[⟨0, ["x"], "f", 5⟩], [], [], 1, 0⟩ [] (.dir 0 [("x", .file 5)]) = .NESTED := by
  have hrec : fileByPath ⟨[⟨0, ["x"], "f", 5⟩], [], [], 1, 0⟩ [] = none := by decide
  have h := c6_untagged_directory_nested ⟨[⟨0, ["x"], "f", 5⟩], [], [], 1, 0⟩ [] 0
    [("x", .file 5)] hrec
  refine ⟨hrec, h.1.mpr ⟨(["x"], .file 5), ?_, ?_⟩⟩
  · rw [descsList, descs]
    exact List.mem_cons_self _ _
  · have : nodeStatus ⟨[⟨0, ["x"], "f", 5⟩], [], [], 1, 0⟩ ["x"] (.file 5) = .TAGGED := by
      rw [nodeStatus]
      simp [fileByPath, List.find?, nodeInfo]
    rw [show [] ++ ["x"] = ["x"] from rfl, this]
    rfl

/-- A nonempty path is distinct from its parent. -/
theorem parentDir_ne (p : Path) (h : p ≠ []) : parentDir p ≠ p := by
  intro heq
  have hlen := congrArg List.length heq
  rw [parentDir, List.length_dropLast] at hlen
  have hpos : 0 < p.length := List.length_pos.mpr h
  omega

/-- The stat information of a node has the directory flag of the node. -/
theorem nodeInfo_isDir (root : FSNode) : (nodeInfo root).isDir = rootIsDir root := by
  cases root <;> rfl

/-- Stat of the empty path always answers with the root node. -/
theorem statAt_nil (root : FSNode) : statAt root [] = some (nodeInfo root) := by
  cases root <;> rfl

/-- A path that resolves in the tree has a parent that resolves to a
directory. -/
theorem findNode_parent_dir :
    ∀ (q : Path) (root : FSNode) (x : String) (node : FSNode),
      findNode root (q ++ [x]) = some node →
      ∃ mt es, findNode root q = some (.dir mt es) := by
  intro q
  induction q with
  | nil =>
    intro root x node h
    cases root with
    | file mt => simp [findNode] at h
    | dir mt es => exact ⟨mt, es, rfl⟩
  | cons y q' ih =>
    intro root x node h
    cases root with
    | file mt => simp [findNode] at h
    | dir mt es =>
      simp only [List.cons_append, findNode] at h
      cases hl : lookupEntry es y with
      | none =>
        simp only [hl] at h
        exact absurd h (by simp)
      | some c =>
        simp only [hl] at h
        rcases ih c x node h with ⟨mt', es', h'⟩
        refine ⟨mt', es', ?_⟩
        simp only [findNode, hl]
        exact h'

/-- A path whose stat succeeds has a parent whose stat succeeds as a
directory (the tree analogue of filesystem consistency). -/
theorem statAt_parent_isDir (root : FSNode) (q : Path) (x : String) (i : StatInfo)
    (h : statAt root (q ++ [x]) = some i) :
    ∃ j, statAt root q = some j ∧ j.isDir = true := by
  unfold statAt at h ⊢
  cases hf : findNode root (q ++ [x]) with
  | none => rw [hf] at h; simp at h
  | some node =>
    rcases findNode_parent_dir q root x node hf with ⟨mt, es, h2⟩
    exact ⟨⟨true, mt⟩, by rw [h2]; rfl, rfl⟩

/-- What a successful hierarchy validation says: a directory has no
tracked proper descendants, a regular file has no tracked immediate
parent. -/
theorem validateFileAdd_ok_elim (root : FSNode) (db : Database) (p : Path)
    (u : Unit) (info : StatInfo) (hval : validateFileAdd root db p = .ok u)
    (hstat : statAt root p = some info) :
    (info.isDir = true → filesByDirectory db p = []) ∧
    (info.isDir = false → fileByPath db (parentDir p) = none) := by
  simp only [validateFileAdd, hstat] at hval
  cases hdir : info.isDir with
  | true =>
    rw [hdir, if_pos rfl] at hval
    refine ⟨fun _ => ?_, fun hcontra => absurd hcontra (by simp)⟩
    by_cases hfd : filesByDirectory db p = []
    · exact hfd
    · rw [if_pos hfd] at hval
      exact absurd hval (by simp)
  | false =>
    rw [hdir, if_neg (by simp)] at hval
    cases hbp : fileByPath db (parentDir p) with
    | some f =>
      simp only [hbp] at hval
      exact absurd hval (by simp)
    | none => exact ⟨fun hcontra => absurd hcontra (by simp), fun _ => rfl⟩

/-- A path lookup that fails keeps failing in a store whose file paths
all come from the original store. -/
theorem fileByPath_none_of_sub (db db1 : Database) (q : Path)
    (hsub : ∀ f' ∈ db1.files, ∃ g ∈ db.files, f'.path = g.path)
    (h : fileByPath db q = none) : fileByPath db1 q = none := by
  unfold fileByPath at h ⊢
  rw [List.find?_eq_none] at h ⊢
  intro f' hf'
  rcases hsub f' hf' with ⟨g, hg, hpath⟩
  have := h g hg
  simp only [hpath]
  exact this

/-- A path lookup that fails keeps failing after appending a record at a
different path. -/
theorem fileByPath_append_none (db db1 : Database) (q : Path) (nf : File)
    (hfiles : db1.files = db.files ++ [nf])
    (h : fileByPath db q = none) (hne : nf.path ≠ q) : fileByPath db1 q = none := by
  unfold fileByPath at h ⊢
  rw [hfiles, find?_append_singleton _ _ _ h]
  simp [hne]

/-- A successful `applyTag` never touches the file table. -/
theorem applyTag_files (db : Database) (p : Path) (fid : Nat) (n : String)
    (t : Tag) (oft : Option FileTag) (db1 : Database)
    (h : applyTag db p fid n = .ok (t, oft, db1)) : db1.files = db.files := by
  cases hn : checkTagName n with
  | invalid m => simp [applyTag, hn] at h
  | indexOutOfRange => simp [applyTag, hn] at h
  | ok =>
    cases ht : tagByName db n with
    | some t0 =>
      cases hft : fileTagByFileIdAndTagId db fid t0.id with
      | some ft0 =>
        simp only [applyTag, hn, ht, applyTagAssoc, hft, Except.ok.injEq, Prod.mk.injEq] at h
        rw [← h.2.2]
      | none =>
        simp only [applyTag, hn, ht, applyTagAssoc, hft, dbAddFileTag, Except.ok.injEq,
          Prod.mk.injEq] at h
        rw [← h.2.2]
    | none =>
      cases hft : fileTagByFileIdAndTagId (dbAddTag db n).2 fid (dbAddTag db n).1.id with
      | some ft0 =>
        simp only [dbAddTag] at hft
        simp only [applyTag, hn, ht, applyTagAssoc, dbAddTag, hft, Except.ok.injEq,
          Prod.mk.injEq] at h
        rw [← h.2.2]
      | none =>
        simp only [dbAddTag] at hft
        simp only [applyTag, hn, ht, applyTagAssoc, dbAddTag, dbAddFileTag, hft,
          Except.ok.injEq, Prod.mk.injEq] at h
        rw [← h.2.2]

/-- The tag-application loop never touches the file table. -/
theorem applyTags_files :
    ∀ (ns : List String) (db : Database) (p : Path) (fid : Nat),
      ((applyTags db p fid ns).1).files = db.files := by
  intro ns
  induction ns with
  | nil => intro db p fid; rfl
  | cons n rest ih =>
    intro db p fid
    rw [applyTags]
    cases h : applyTag db p fid n with
    | error e => rfl
    | ok r =>
      obtain ⟨t, oft, db1⟩ := r
      have hf : db1.files = db.files := applyTag_files db p fid n t oft db1 h
      rw [← hf]
      exact ih db1 p fid

/-- The hierarchy invariant only reads the file table, so it transfers
across operations that leave the file table unchanged. -/
theorem HierInv_congr (root : FSNode) (db db1 : Database)
    (hf : db1.files = db.files) (h : HierInv root db) : HierInv root db1 := by
  intro g hg info hstat hdir
  rw [hf] at hg
  have := h g hg info hstat hdir
  unfold fileByPath at this ⊢
  rw [hf]
  exact this

/-- A successful `addFile` preserves the hierarchy invariant: a freshly
inserted regular file passed the immediate-parent check, an insertion at
the parent of a tracked regular file is impossible because the validator
would have seen that file as a tracked descendant, and updates keep every
path in place. -/
theorem addFile_preserves_HierInv (root : FSNode) (fpOf : Path → Option String)
    (db : Database) (p : Path) (f : File) (db1 : Database)
    (hroot : rootIsDir root = true) (hinv : HierInv root db)
    (h : addFile root fpOf db p = .ok (f, db1)) : HierInv root db1 := by
  cases hfp : fpOf p with
  | none => simp [addFile, hfp] at h
  | some fp =>
  cases hval : validateFileAdd root db p with
  | error e => simp [addFile, hfp, hval] at h
  | ok u =>
  cases hstat : statAt root p with
  | none => simp [addFile, hfp, hval, hstat] at h
  | some info =>
  have helim := validateFileAdd_ok_elim root db p u info hval hstat
  have hpne : info.isDir = false → p ≠ [] := by
    intro hdir hp
    rw [hp, statAt_nil root] at hstat
    have hni : nodeInfo root = info := by injection hstat
    rw [← hni, nodeInfo_isDir, hroot] at hdir
    exact Bool.true_eq_false.mp hdir
  cases hbp : fileByPath db p with
  | none =>
    simp only [addFile, hfp, hval, hstat, hbp, dbAddFile, Except.ok.injEq,
      Prod.mk.injEq] at h
    obtain ⟨-, hdb⟩ := h
    subst hdb
    intro g hg info' hstatg hdirg
    rcases List.mem_append.mp hg with hg | hg
    · have hold := hinv g hg info' hstatg hdirg
      by_cases hpg : p = parentDir g.path
      · exfalso
        have hgne : g.path ≠ [] := by
          intro hgp
          rw [hgp, statAt_nil root] at hstatg
          have hni : nodeInfo root = info' := by injection hstatg
          rw [← hni, nodeInfo_isDir, hroot] at hdirg
          exact Bool.true_eq_false.mp hdirg
        have hsplit : parentDir g.path ++ [g.path.getLast hgne] = g.path := by
          rw [parentDir]
          exact List.dropLast_append_getLast hgne
        have hstatg' : statAt root (parentDir g.path ++ [g.path.getLast hgne]) = some info' := by
          rw [hsplit]
          exact hstatg
        rcases statAt_parent_isDir root (parentDir g.path) (g.path.getLast hgne) info'
          hstatg' with ⟨j, hj, hjdir⟩
        rw [← hpg, hstat] at hj
        have hjinfo : info = j := by injection hj
        have hdirp : info.isDir = true := by rw [hjinfo]; exact hjdir
        have hfd := helim.1 hdirp
        have hgin : g ∈ filesByDirectory db p := by
          unfold filesByDirectory
          rw [List.mem_filter]
          refine ⟨hg, ?_⟩
          unfold isProperUnder
          have hpre : p.isPrefixOf g.path = true := by
            rw [ List.isPrefixOf_iff_prefix, hpg]
            exact ⟨[g.path.getLast hgne], hsplit⟩
          have hne2 : g.path ≠ p := by
            rw [hpg]
            exact fun hcon => parentDir_ne g.path hgne hcon.symm
          simp [hpre, hne2]
        rw [hfd] at hgin
        simp at hgin
      · exact fileByPath_append_none db _ (parentDir g.path) _ rfl hold
          (fun hcon => hpg (by rw [← hcon]))
    · have hgnf : g = ⟨db.nextFileId, p, fp, info.modTime⟩ := by
        simpa using hg
      subst hgnf
      have hstatp : statAt root p = some info' := hstatg
      rw [hstat] at hstatp
      have hinfo : info = info' := by injection hstatp
      have hdirp : info.isDir = false := by rw [hinfo]; exact hdirg
      have hparent := helim.2 hdirp
      have hpn : p ≠ [] := hpne hdirp
      exact fileByPath_append_none db _ (parentDir p) _ rfl hparent
        (fun hcon => parentDir_ne p hpn hcon.symm)
  | some f0 =>
    have hf0mem : f0 ∈ db.files := List.mem_of_find?_eq_some hbp
    by_cases hmt : f0.modTime ≠ info.modTime
    · simp only [addFile, hfp, hval, hstat, hbp] at h
      rw [if_pos hmt] at h
      simp only [dbUpdateFile, Except.ok.injEq, Prod.mk.injEq] at h
      obtain ⟨-, hdb⟩ := h
      subst hdb
      have hsub : ∀ f' ∈ (db.files.map
          (fun g => if g.id = f0.id then (⟨g.id, f0.path, fp, info.modTime⟩ : File) else g)),
          ∃ g ∈ db.files, f'.path = g.path := by
        intro f' hf'
        rcases List.mem_map.mp hf' with ⟨g, hg, hfg⟩
        by_cases hid : g.id = f0.id
        · rw [← hfg, if_pos hid]
          exact ⟨f0, hf0mem, rfl⟩
        · rw [← hfg, if_neg hid]
          exact ⟨g, hg, rfl⟩
      intro g' hg' info' hstatg' hdirg'
      rcases hsub g' hg' with ⟨g, hg, hpath⟩
      rw [hpath] at hstatg' ⊢
      have hold := hinv g hg info' hstatg' hdirg'
      exact fileByPath_none_of_sub db _ (parentDir g.path) hsub hold
    · simp only [addFile, hfp, hval, hstat, hbp] at h
      rw [if_neg hmt] at h
      simp only [Except.ok.injEq, Prod.mk.injEq] at h
      obtain ⟨-, hdb⟩ := h
      subst hdb
      exact hinv

/-- C4 amended: over a fixed filesystem tree whose root is a directory,
every store reachable from the empty store by `tagPath` operations
satisfies the invariant that the validator actually maintains — no File
record that stats as a regular file has its immediate parent directory
recorded too — and any attempt to tag a regular file whose immediate
parent is recorded fails in the validator with a hierarchy conflict
before any store mutation.  The full ancestor/descendant non-nesting
claim does not hold: only a directory's tracked descendants and a file's
immediate parent are checked, so tagging a file under a tracked
grandparent succeeds (see the counterexample). -/
theorem c4_amended_immediate_parent_invariant :
    ∀ (root : FSNode) (fpOf : Path → Option String),
      rootIsDir root = true →
      (∀ db, Reachable root fpOf db → HierInv root db) ∧
      (∀ (db : Database) (p : Path) (ns : List String) (fp : String) (f : File)
        (info : StatInfo),
        fpOf p = some fp → statAt root p = some info → info.isDir = false →
        fileByPath db (parentDir p) = some f →
        tagPath root fpOf db p ns = (db, some .hierarchyConflict)) := by
  intro root fpOf hroot
  constructor
  · intro db hreach
    induction hreach with
    | empty => intro g hg _ _ _; simp [emptyDb] at hg
    | step db p ns hr ih =>
      cases ha : addFile root fpOf db p with
      | error e =>
        simp only [tagPath, ha]
        exact ih
      | ok r =>
        obtain ⟨f, db1⟩ := r
        simp only [tagPath, ha]
        exact HierInv_congr root db1 _ (applyTags_files ns db1 p f.id)
          (addFile_preserves_HierInv root fpOf db p f db1 hroot ih ha)
  · intro db p ns fp f info hfp hstat hdir hparent
    have hval : validateFileAdd root db p = .error .hierarchyConflict := by
      simp [validateFileAdd, hstat, hdir, hparent]
    simp [tagPath, addFile, hfp, hval]

/-- C4 witness: the amended statement at a concrete tree and store — the
empty store is reachable and satisfies the invariant, and tagging the
regular file `/a/b` while `/a` is tracked fails with a hierarchy
conflict, leaving the store untouched. -/
theorem c4_witness :
    rootIsDir rootC3 = true ∧
    HierInv rootC3 emptyDb ∧
    tagPath rootC3 fpC3 dbC3 ["a", "b"] ["t"] = (dbC3, some .hierarchyConflict) := by
  have h := c4_amended_immediate_parent_invariant rootC3 fpC3 (by decide)
  exact ⟨by decide, h.1 emptyDb Reachable.empty,
    h.2 dbC3 ["a", "b"] ["t"] "g" ⟨0, ["a"], "f", 1⟩ ⟨false, 2⟩
      (by decide) (by decide) rfl (by decide)⟩

/-- C4 counterexample: starting from the empty store over a fixed tree,
tagging the directory `/a` and then the regular file `/a/b/c.txt` both
succeed, so a reachable store holds File records at both `/a` and its
strict descendant `/a/b/c.txt` — the validator let a nesting violation
through (it only checks a file's immediate parent, not all ancestors),
refuting the claimed invariant and its round-trip form. -/
theorem c4_counterexample :
    Reachable rootC4 fpC4 dbC4b ∧
    (⟨0, ["a"], "fpA", 1⟩ : File) ∈ dbC4b.files ∧
    (⟨1, ["a", "b", "c.txt"], "fpC", 3⟩ : File) ∈ dbC4b.files ∧
    isProperUnder ["a", "b", "c.txt"] ["a"] = true := by
  have s1 : Reachable rootC4 fpC4 (tagPath rootC4 fpC4 emptyDb ["a"] ["t"]).1 :=
    Reachable.step emptyDb ["a"] ["t"] Reachable.empty
  have e1 : (tagPath rootC4 fpC4 emptyDb ["a"] ["t"]).1 = dbC4a := by decide
  rw [e1] at s1
  have s2 : Reachable rootC4 fpC4 (tagPath rootC4 fpC4 dbC4a ["a", "b", "c.txt"] ["t"]).1 :=
    Reachable.step dbC4a ["a", "b", "c.txt"] ["t"] s1
  have e2 : (tagPath rootC4 fpC4 dbC4a ["a", "b", "c.txt"] ["t"]).1 = dbC4b := by decide
  rw [e2] at s2
  exact ⟨s2, by decide, by decide, by decide⟩

end Tmsu
